import Mathlib

/-!
Shallow embedding of the contiguous-memory-allocator engine from
src/contiguous_memory_allocator.c (the variant whose functions carry the
Doxygen comments: allocateFirstFit, allocateBestFit, allocateWorstFit,
requestMemory, releaseMemory, mergeFreeBlocks, mergeAllFreeMemory,
compactMemory) together with the command-shell parsing of its main loop.
The linked list of Node records (after the dummy head) is modelled as a
List Block; the dummy head's availableSpace field, which the C code uses
as the free-space accumulator, is the freeTotal field of AllocState.
C ints are modelled as Int; the sentinel constants INT_MAX / INT_MIN of
the two-pass strategies are carried over literally.
-/

/-- FREE_LABEL marker string for unallocated blocks (#define FREE_LABEL "FREE"). -/
def FREE_LABEL : String := "FREE"

/-- Block mirrors struct Node (availableSpace, startAddress, endAddress, processId);
the next pointer is represented by list structure. -/
structure Block where
  availableSpace : Int
  startAddress : Int
  endAddress : Int
  processId : String
deriving Repr, DecidableEq

/-- AllocState: the dummy head's availableSpace accumulator, the block list after
the dummy head, and the global lastAddressSpace. -/
structure AllocState where
  freeTotal : Int
  blocks : List Block
  lastAddressSpace : Int
deriving Repr, DecidableEq

/-- intMax mirrors INT_MAX, the initial accumulator of allocateBestFit. -/
def intMax : Int := 2147483647

/-- intMin mirrors INT_MIN, the initial accumulator of allocateWorstFit. -/
def intMin : Int := -2147483648

/-- createFreeBlock builds the leftover FREE node inserted after an allocation:
start = allocated end + 1, end = start + leftover - 1 clamped to lastAddressSpace. -/
def createFreeBlock (last : Int) (allocEnd : Int) (leftover : Int) : Block :=
  { availableSpace := leftover
    startAddress := allocEnd + 1
    endAddress :=
      if last < allocEnd + 1 + leftover - 1 then last else allocEnd + 1 + leftover - 1
    processId := FREE_LABEL }

/-- allocBlock performs the in-place allocation of a chosen FREE block b:
the block's owner becomes pid, its extent is truncated to req bytes, its
availableSpace becomes req, and if leftover space remains a new FREE block
is inserted right after it (createFreeBlock). -/
def allocBlock (last : Int) (pid : String) (req : Int) (b : Block) (rest : List Block) :
    List Block :=
  let allocated : Block :=
    { availableSpace := req
      startAddress := b.startAddress
      endAddress := b.startAddress + req - 1
      processId := pid }
  if 0 < b.availableSpace - req then
    allocated :: createFreeBlock last (b.startAddress + req - 1) (b.availableSpace - req) :: rest
  else
    allocated :: rest

/-- mergeFrom models the scan of mergeFreeBlocks with current pointing at cur:
if cur and its successor are both FREE they are combined (current keeps its
startAddress and processId, takes the successor's endAddress, sums the sizes)
and the scan stays at the combined node, otherwise the scan advances. -/
def mergeFrom (cur : Block) : List Block → List Block
  | [] => [cur]
  | b :: rest =>
    if cur.processId = FREE_LABEL ∧ b.processId = FREE_LABEL then
      mergeFrom
        { availableSpace := cur.availableSpace + b.availableSpace
          startAddress := cur.startAddress
          endAddress := b.endAddress
          processId := cur.processId } rest
    else
      cur :: mergeFrom b rest

/-- mergeGo runs the full-list scan of mergeFreeBlocks over the blocks after the
dummy head (whose processId is never the FREE marker). -/
def mergeGo : List Block → List Block
  | [] => []
  | b :: rest => mergeFrom b rest

/-- mergeFreeBlocks coalesces every adjacent pair of FREE blocks in the list. -/
def mergeFreeBlocks (s : AllocState) : AllocState :=
  { s with blocks := mergeGo s.blocks }

/-- freeSum is the total of availableSpace over the FREE blocks of a list
(the totalFree accumulation of mergeAllFreeMemory). -/
def freeSum : List Block → Int
  | [] => 0
  | b :: rest =>
    (if b.processId = FREE_LABEL then b.availableSpace else 0) + freeSum rest

/-- occBlocks keeps exactly the non-FREE blocks of a list, in order
(the nodes mergeAllFreeMemory leaves linked). -/
def occBlocks : List Block → List Block
  | [] => []
  | b :: rest =>
    if b.processId = FREE_LABEL then occBlocks rest else b :: occBlocks rest

/-- occSum is the total of availableSpace over the occupied (non-FREE) blocks. -/
def occSum : List Block → Int
  | [] => 0
  | b :: rest =>
    (if b.processId = FREE_LABEL then 0 else b.availableSpace) + occSum rest

/-- mergeAllFreeMemory unlinks every FREE node while summing their sizes into
totalFree, then (when totalFree is positive) appends a single FREE block
spanning addresses lastAddressSpace + 1 - totalFree .. lastAddressSpace, and
stores totalFree into the dummy head accumulator. -/
def mergeAllFreeMemory (s : AllocState) : AllocState :=
  { freeTotal := freeSum s.blocks
    blocks :=
      if 0 < freeSum s.blocks then
        occBlocks s.blocks ++
          [{ availableSpace := freeSum s.blocks
             startAddress := s.lastAddressSpace + 1 - freeSum s.blocks
             endAddress := s.lastAddressSpace
             processId := FREE_LABEL }]
      else occBlocks s.blocks
    lastAddressSpace := s.lastAddressSpace }

/-- compactMemory calls mergeFreeBlocks and then mergeAllFreeMemory. -/
def compactMemory (s : AllocState) : AllocState :=
  mergeAllFreeMemory (mergeFreeBlocks s)

/-- existsGo is the scan of processExists over the list after the dummy head. -/
def existsGo (pid : String) : List Block → Bool
  | [] => false
  | b :: rest => if b.processId = pid then true else existsGo pid rest

/-- processExists returns true iff some block's processId equals pid
(FREE blocks included, since the scan compares every node's processId). -/
def processExists (s : AllocState) (pid : String) : Bool :=
  existsGo pid s.blocks

/-- firstFitGo scans for the first FREE block with availableSpace at least the
request and allocates in it, returning the new list and the allocated
start and end addresses. -/
def firstFitGo (last : Int) (pid : String) (req : Int) :
    List Block → Option (List Block × Int × Int)
  | [] => none
  | b :: rest =>
    if b.processId = FREE_LABEL ∧ req ≤ b.availableSpace then
      some (allocBlock last pid req b rest, b.startAddress, b.startAddress + req - 1)
    else
      match firstFitGo last pid req rest with
      | some (l, a, e) => some (b :: l, a, e)
      | none => none

/-- bestFitSizeGo is the first pass of allocateBestFit: it folds the running
smallestFit over the list, replacing it by any FREE block's size that is at
least the request and strictly below the running value. -/
def bestFitSizeGo (req : Int) (m : Int) : List Block → Int
  | [] => m
  | b :: rest =>
    bestFitSizeGo req
      (if b.processId = FREE_LABEL ∧ req ≤ b.availableSpace ∧ b.availableSpace < m then
        b.availableSpace
      else m) rest

/-- worstFitSizeGo is the first pass of allocateWorstFit: it folds the running
largestFit, replacing it by any FREE block's size that is at least the request
and strictly above the running value. -/
def worstFitSizeGo (req : Int) (m : Int) : List Block → Int
  | [] => m
  | b :: rest =>
    worstFitSizeGo req
      (if b.processId = FREE_LABEL ∧ req ≤ b.availableSpace ∧ m < b.availableSpace then
        b.availableSpace
      else m) rest

/-- placeExactGo is the second pass shared by allocateBestFit and
allocateWorstFit: it allocates in the first FREE block whose availableSpace
equals the size found by the first pass (no recheck against the request). -/
def placeExactGo (last : Int) (pid : String) (req : Int) (fitSize : Int) :
    List Block → Option (List Block × Int × Int)
  | [] => none
  | b :: rest =>
    if b.processId = FREE_LABEL ∧ b.availableSpace = fitSize then
      some (allocBlock last pid req b rest, b.startAddress, b.startAddress + req - 1)
    else
      match placeExactGo last pid req fitSize rest with
      | some (l, a, e) => some (b :: l, a, e)
      | none => none

/-- allocateFirstFit: on success the accumulator decreases by the request and
the list is updated; on failure the state is returned unchanged. -/
def allocateFirstFit (s : AllocState) (pid : String) (req : Int) :
    AllocState × Option (Int × Int) :=
  match firstFitGo s.lastAddressSpace pid req s.blocks with
  | some (bs, a, e) => ({ s with freeTotal := s.freeTotal - req, blocks := bs }, some (a, e))
  | none => (s, none)

/-- allocateBestFit: two passes, smallestFit initialised to INT_MAX. -/
def allocateBestFit (s : AllocState) (pid : String) (req : Int) :
    AllocState × Option (Int × Int) :=
  match placeExactGo s.lastAddressSpace pid req (bestFitSizeGo req intMax s.blocks) s.blocks with
  | some (bs, a, e) => ({ s with freeTotal := s.freeTotal - req, blocks := bs }, some (a, e))
  | none => (s, none)

/-- allocateWorstFit: two passes, largestFit initialised to INT_MIN. -/
def allocateWorstFit (s : AllocState) (pid : String) (req : Int) :
    AllocState × Option (Int × Int) :=
  match placeExactGo s.lastAddressSpace pid req (worstFitSizeGo req intMin s.blocks) s.blocks with
  | some (bs, a, e) => ({ s with freeTotal := s.freeTotal - req, blocks := bs }, some (a, e))
  | none => (s, none)

/-- ReqResult is the observable outcome of requestMemory, distinguished in the
C code by the message printed. -/
inductive ReqResult
  | duplicate
  | allocated (startAddress endAddress : Int)
  | insufficient
  | badAlgo
deriving Repr, DecidableEq

/-- toReq tags an allocation outcome with its ReqResult. -/
def toReq : AllocState × Option (Int × Int) → AllocState × ReqResult
  | (s, some (a, e)) => (s, ReqResult.allocated a e)
  | (s, none) => (s, ReqResult.insufficient)

/-- requestMemory rejects a pid that already exists, then dispatches on the
algorithm letter in the order W, B, F of the C code. -/
def requestMemory (s : AllocState) (pid : String) (req : Int) (algo : String) :
    AllocState × ReqResult :=
  if processExists s pid then (s, ReqResult.duplicate)
  else if algo = "W" then toReq (allocateWorstFit s pid req)
  else if algo = "B" then toReq (allocateBestFit s pid req)
  else if algo = "F" then toReq (allocateFirstFit s pid req)
  else (s, ReqResult.badAlgo)

/-- releaseGo finds the first block whose processId equals pid and relabels it
FREE, also returning that block's availableSpace. -/
def releaseGo (pid : String) : List Block → Option (List Block × Int)
  | [] => none
  | b :: rest =>
    if b.processId = pid then
      some ({ b with processId := FREE_LABEL } :: rest, b.availableSpace)
    else
      match releaseGo pid rest with
      | some (l, sz) => some (b :: l, sz)
      | none => none

/-- releaseMemory adds the found block's size to the accumulator, relabels the
block FREE, and runs mergeFreeBlocks; it returns false when pid is not found. -/
def releaseMemory (s : AllocState) (pid : String) : AllocState × Bool :=
  match releaseGo pid s.blocks with
  | some (bs, sz) =>
      ({ s with freeTotal := s.freeTotal + sz, blocks := mergeGo bs }, true)
  | none => (s, false)

/-- initState models main's initialisation for a startup capacity n:
initialMemory = n - 1, accumulator and single FREE block of size
initialMemory + 1 spanning addresses 0 .. initialMemory. -/
def initState (n : Int) : AllocState :=
  { freeTotal := n - 1 + 1
    blocks :=
      [{ availableSpace := n - 1 + 1
         startAddress := 0
         endAddress := n - 1
         processId := FREE_LABEL }]
    lastAddressSpace := n - 1 }

/-- Op is one engine command of a trace: an allocation request or a release. -/
inductive Op
  | rq (pid : String) (size : Int) (algo : String)
  | rl (pid : String)
deriving Repr, DecidableEq

/-- stepOp applies one Op to a state, discarding the printed outcome. -/
def stepOp (s : AllocState) : Op → AllocState
  | Op.rq pid sz algo => (requestMemory s pid sz algo).1
  | Op.rl pid => (releaseMemory s pid).1

/-- runOps folds a trace of engine commands over a state. -/
def runOps (s : AllocState) : List Op → AllocState
  | [] => s
  | op :: ops => runOps (stepOp s op) ops

/-- noAdjFreeB decides whether no two adjacent blocks of the list are both FREE
(invariant I2 of the specification). -/
def noAdjFreeB : List Block → Bool
  | [] => true
  | [_] => true
  | a :: b :: rest =>
    if a.processId = FREE_LABEL ∧ b.processId = FREE_LABEL then false
    else noAdjFreeB (b :: rest)

/-- isSpaceChar models the isspace class used by sscanf to delimit conversions. -/
def isSpaceChar (c : Char) : Bool :=
  c = ' ' || c = '\t' || c = '\n' || c = '\x0b' || c = '\x0c' || c = '\r'

/-- dropWs skips the leading whitespace before an sscanf conversion. -/
def dropWs : List Char → List Char
  | [] => []
  | c :: rest => if isSpaceChar c then dropWs rest else c :: rest

/-- takeWordAll reads a maximal run of non-space characters (a %s conversion
with no field width). -/
def takeWordAll : List Char → List Char × List Char
  | [] => ([], [])
  | c :: rest =>
    if isSpaceChar c then ([], c :: rest)
    else
      match takeWordAll rest with
      | (w, r) => (c :: w, r)

/-- takeWordN reads at most n non-space characters (a %s conversion with a
field width, as in %2s and %1s). -/
def takeWordN : Nat → List Char → List Char × List Char
  | 0, cs => ([], cs)
  | _, [] => ([], [])
  | n + 1, c :: rest =>
    if isSpaceChar c then ([], c :: rest)
    else
      match takeWordN n rest with
      | (w, r) => (c :: w, r)

/-- scanStrAll is a %s conversion: skip whitespace, read a nonempty word. -/
def scanStrAll (cs : List Char) : Option (String × List Char) :=
  match takeWordAll (dropWs cs) with
  | ([], _) => none
  | (w, r) => some (String.mk w, r)

/-- scanStrN is a width-limited %s conversion (%2s, %1s). -/
def scanStrN (n : Nat) (cs : List Char) : Option (String × List Char) :=
  match takeWordN n (dropWs cs) with
  | ([], _) => none
  | (w, r) => some (String.mk w, r)

/-- takeDigits reads a maximal run of decimal digits. -/
def takeDigits : List Char → List Char × List Char
  | [] => ([], [])
  | c :: rest =>
    if c.isDigit then
      match takeDigits rest with
      | (d, r) => (c :: d, r)
    else ([], c :: rest)

/-- digitsVal converts a digit run to its integer value. -/
def digitsVal (ds : List Char) : Int :=
  ds.foldl (fun a c => a * 10 + ((c.toNat : Int) - 48)) 0

/-- scanInt is a %d conversion: skip whitespace, optional sign, at least one
digit; it stops at the first non-digit and fails when no digit is present. -/
def scanInt (cs : List Char) : Option (Int × List Char) :=
  match dropWs cs with
  | '-' :: rest =>
    (match takeDigits rest with
     | ([], _) => none
     | (ds, r) => some (-(digitsVal ds), r))
  | '+' :: rest =>
    (match takeDigits rest with
     | ([], _) => none
     | (ds, r) => some (digitsVal ds, r))
  | cs2 =>
    match takeDigits cs2 with
    | ([], _) => none
    | (ds, r) => some (digitsVal ds, r)

/-- rqParse models sscanf(command, "%s %2s %d %1s", ...) of the RQ branch:
it succeeds exactly when all four conversions succeed, returning the pid
(at most 2 characters), the size integer, and the 1-character algorithm. -/
def rqParse (line : String) : Option (String × Int × String) :=
  match scanStrAll line.toList with
  | none => none
  | some (_, r1) =>
    match scanStrN 2 r1 with
    | none => none
    | some (pid, r2) =>
      match scanInt r2 with
      | none => none
      | some (sz, r3) =>
        match scanStrN 1 r3 with
        | none => none
        | some (algo, _) => some (pid, sz, algo)

/-- rlParse models sscanf(command, "%s %2s", ...) of the RL branch. -/
def rlParse (line : String) : Option String :=
  match scanStrAll line.toList with
  | none => none
  | some (_, r1) =>
    match scanStrN 2 r1 with
    | none => none
    | some (pid, _) => some pid

/-- firstWord models the dispatching sscanf(command, "%s", requestType). -/
def firstWord (line : String) : Option String :=
  match scanStrAll line.toList with
  | none => none
  | some (w, _) => some w

/-- EngineCall records which engine operation (if any) one iteration of the
command loop performs for a line. -/
inductive EngineCall
  | rqCall (pid : String) (sz : Int) (algo : String) (r : ReqResult)
  | rlCall (pid : String) (ok : Bool)
  | compactCall
  | statCall
  | exitCall
  | lineError
deriving Repr, DecidableEq

/-- shellExec models one iteration of main's command loop on a line: dispatch
on the first word, re-parse the RQ and RL argument lines, and call the engine
whenever the sscanf field count matches; no other validation is performed. -/
def shellExec (s : AllocState) (line : String) : AllocState × EngineCall :=
  match firstWord line with
  | none => (s, EngineCall.lineError)
  | some w =>
    if w = "X" then (s, EngineCall.exitCall)
    else if w = "RQ" then
      match rqParse line with
      | some (pid, sz, algo) =>
        match requestMemory s pid sz algo with
        | (s2, r) => (s2, EngineCall.rqCall pid sz algo r)
      | none => (s, EngineCall.lineError)
    else if w = "RL" then
      match rlParse line with
      | some pid =>
        match releaseMemory s pid with
        | (s2, ok) => (s2, EngineCall.rlCall pid ok)
      | none => (s, EngineCall.lineError)
    else if w = "C" then (compactMemory s, EngineCall.compactCall)
    else if w = "STAT" then (s, EngineCall.statCall)
    else (s, EngineCall.lineError)

/-- sec8Pre is the state of the section-8 end-to-end scenario just before
compaction: capacity 1000, Best-Fit allocation of p1 (100 bytes), First-Fit
allocation of p2 (50 bytes), then release of p1. -/
def sec8Pre : AllocState :=
  runOps (initState 1000) [Op.rq "p1" 100 "B", Op.rq "p2" 50 "F", Op.rl "p1"]

/-- opOK restricts a trace operation to the documented preconditions: requests
carry a positive size representable as a C int, and releases never target the
FREE marker. -/
def opOK : Op → Bool
  | Op.rq _ sz _ => decide (0 < sz) && decide (sz ≤ intMax)
  | Op.rl pid => !(pid == FREE_LABEL)

/-- sizesNonneg states that every block of the list has nonnegative size. -/
def sizesNonneg (l : List Block) : Prop := ∀ b ∈ l, 0 ≤ b.availableSpace

theorem freeSum_append (l1 l2 : List Block) :
    freeSum (l1 ++ l2) = freeSum l1 + freeSum l2 := by
  induction l1 with
  | nil => simp [freeSum]
  | cons b rest ih => simp [freeSum, ih]; ring

theorem occSum_append (l1 l2 : List Block) :
    occSum (l1 ++ l2) = occSum l1 + occSum l2 := by
  induction l1 with
  | nil => simp [occSum]
  | cons b rest ih => simp [occSum, ih]; ring

theorem occBlocks_append (l1 l2 : List Block) :
    occBlocks (l1 ++ l2) = occBlocks l1 ++ occBlocks l2 := by
  induction l1 with
  | nil => simp [occBlocks]
  | cons b rest ih =>
    by_cases h : b.processId = FREE_LABEL
    · simp [occBlocks, h, ih]
    · simp [occBlocks, h, ih]

theorem freeSum_occBlocks (l : List Block) : freeSum (occBlocks l) = 0 := by
  induction l with
  | nil => simp [occBlocks, freeSum]
  | cons b rest ih =>
    by_cases h : b.processId = FREE_LABEL
    · simp [occBlocks, h, ih]
    · simp [occBlocks, freeSum, h, ih]

theorem occBlocks_occBlocks (l : List Block) : occBlocks (occBlocks l) = occBlocks l := by
  induction l with
  | nil => simp [occBlocks]
  | cons b rest ih =>
    by_cases h : b.processId = FREE_LABEL
    · simp [occBlocks, h, ih]
    · simp [occBlocks, h, ih]

theorem freeSum_mergeFrom : ∀ (l : List Block) (cur : Block),
    freeSum (mergeFrom cur l) = freeSum (cur :: l)
  | [], cur => by simp [mergeFrom]
  | b :: rest, cur => by
    by_cases h : cur.processId = FREE_LABEL ∧ b.processId = FREE_LABEL
    · rw [mergeFrom, if_pos h, freeSum_mergeFrom rest]
      simp [freeSum, h.1, h.2]
      ring
    · rw [mergeFrom, if_neg h]
      simp [freeSum, freeSum_mergeFrom rest b]

theorem occSum_mergeFrom : ∀ (l : List Block) (cur : Block),
    occSum (mergeFrom cur l) = occSum (cur :: l)
  | [], cur => by simp [mergeFrom]
  | b :: rest, cur => by
    by_cases h : cur.processId = FREE_LABEL ∧ b.processId = FREE_LABEL
    · rw [mergeFrom, if_pos h, occSum_mergeFrom rest]
      simp [occSum, h.1, h.2]
    · rw [mergeFrom, if_neg h]
      simp [occSum, occSum_mergeFrom rest b]

theorem occBlocks_mergeFrom : ∀ (l : List Block) (cur : Block),
    occBlocks (mergeFrom cur l) = occBlocks (cur :: l)
  | [], cur => by simp [mergeFrom]
  | b :: rest, cur => by
    by_cases h : cur.processId = FREE_LABEL ∧ b.processId = FREE_LABEL
    · rw [mergeFrom, if_pos h, occBlocks_mergeFrom rest]
      simp [occBlocks, h.1, h.2]
    · rw [mergeFrom, if_neg h]
      by_cases hc : cur.processId = FREE_LABEL
      · simp [occBlocks, hc, occBlocks_mergeFrom rest b]
      · simp [occBlocks, hc, occBlocks_mergeFrom rest b]

theorem freeSum_mergeGo (l : List Block) : freeSum (mergeGo l) = freeSum l := by
  cases l with
  | nil => simp [mergeGo]
  | cons b rest => simp [mergeGo, freeSum_mergeFrom]

theorem occSum_mergeGo (l : List Block) : occSum (mergeGo l) = occSum l := by
  cases l with
  | nil => simp [mergeGo]
  | cons b rest => simp [mergeGo, occSum_mergeFrom]

theorem occBlocks_mergeGo (l : List Block) : occBlocks (mergeGo l) = occBlocks l := by
  cases l with
  | nil => simp [mergeGo]
  | cons b rest => simp [mergeGo, occBlocks_mergeFrom]

theorem sizesNonneg_mergeFrom : ∀ (l : List Block) (cur : Block),
    0 ≤ cur.availableSpace → sizesNonneg l → sizesNonneg (mergeFrom cur l)
  | [], cur, hc, _ => by
    intro b hb
    simp [mergeFrom] at hb
    simpa [hb] using hc
  | b :: rest, cur, hc, hl => by
    have hb0 : 0 ≤ b.availableSpace := hl b (by simp)
    have hrest : sizesNonneg rest := fun x hx => hl x (by simp [hx])
    by_cases h : cur.processId = FREE_LABEL ∧ b.processId = FREE_LABEL
    · rw [mergeFrom, if_pos h]
      exact sizesNonneg_mergeFrom rest _ (by simpa using add_nonneg hc hb0) hrest
    · rw [mergeFrom, if_neg h]
      intro x hx
      rcases List.mem_cons.mp hx with h1 | h2
      · simpa [h1] using hc
      · exact sizesNonneg_mergeFrom rest b hb0 hrest x h2

theorem sizesNonneg_mergeGo (l : List Block) (h : sizesNonneg l) :
    sizesNonneg (mergeGo l) := by
  cases l with
  | nil => simpa [mergeGo] using h
  | cons b rest =>
    rw [mergeGo]
    exact sizesNonneg_mergeFrom rest b (h b (by simp))
      (fun x hx => h x (by simp [hx]))

theorem noAdjFreeB_cons_cons (a b : Block) (l : List Block) :
    noAdjFreeB (a :: b :: l) = true ↔
      (¬(a.processId = FREE_LABEL ∧ b.processId = FREE_LABEL) ∧
        noAdjFreeB (b :: l) = true) := by
  by_cases h : a.processId = FREE_LABEL ∧ b.processId = FREE_LABEL
  · simp [noAdjFreeB, h]
  · simp [noAdjFreeB, h]

theorem noAdjFreeB_tail (a : Block) (l : List Block)
    (h : noAdjFreeB (a :: l) = true) : noAdjFreeB l = true := by
  cases l with
  | nil => simp [noAdjFreeB]
  | cons b rest => exact ((noAdjFreeB_cons_cons a b rest).mp h).2

theorem noAdjFreeB_suffix : ∀ (xs l : List Block),
    noAdjFreeB (xs ++ l) = true → noAdjFreeB l = true
  | [], _, h => h
  | x :: xs, l, h =>
    noAdjFreeB_suffix xs l (noAdjFreeB_tail x (xs ++ l) (by simpa using h))

theorem mergeFrom_of_noAdj : ∀ (l : List Block) (cur : Block),
    noAdjFreeB (cur :: l) = true → mergeFrom cur l = cur :: l
  | [], cur, _ => by simp [mergeFrom]
  | b :: rest, cur, h => by
    obtain ⟨hp, ht⟩ := (noAdjFreeB_cons_cons cur b rest).mp h
    rw [mergeFrom, if_neg hp, mergeFrom_of_noAdj rest b ht]

theorem noAdjFreeB_append_one : ∀ (xs : List Block) (y : Block) (rest : List Block),
    noAdjFreeB (xs ++ y :: rest) = true → noAdjFreeB (xs ++ [y]) = true
  | [], _, _, _ => by simp [noAdjFreeB]
  | [x], y, rest, h => by
    obtain ⟨hp, _⟩ := (noAdjFreeB_cons_cons x y rest).mp (by simpa using h)
    simpa using (noAdjFreeB_cons_cons x y []).mpr ⟨hp, by simp [noAdjFreeB]⟩
  | x :: x2 :: xs, y, rest, h => by
    obtain ⟨hp, ht⟩ :=
      (noAdjFreeB_cons_cons x x2 (xs ++ y :: rest)).mp (by simpa using h)
    have hrec := noAdjFreeB_append_one (x2 :: xs) y rest (by simpa using ht)
    simpa using (noAdjFreeB_cons_cons x x2 (xs ++ [y])).mpr ⟨hp, by simpa using hrec⟩

theorem mergeFrom_through : ∀ (pre : List Block) (cur hd : Block) (l2 : List Block),
    noAdjFreeB (cur :: pre ++ [hd]) = true →
    mergeFrom cur (pre ++ hd :: l2) = cur :: (pre ++ mergeFrom hd l2)
  | [], cur, hd, l2, h => by
    obtain ⟨hp, _⟩ := (noAdjFreeB_cons_cons cur hd []).mp (by simpa using h)
    rw [List.nil_append, mergeFrom, if_neg hp, List.nil_append]
  | p :: pre, cur, hd, l2, h => by
    obtain ⟨hp, ht⟩ :=
      (noAdjFreeB_cons_cons cur p (pre ++ [hd])).mp (by simpa using h)
    rw [List.cons_append, mergeFrom, if_neg hp,
      mergeFrom_through pre p hd l2 (by simpa using ht)]
    simp

theorem mergeFrom_triple (f1 bm f2 : Block) (post : List Block)
    (h1 : f1.processId = FREE_LABEL) (hb : bm.processId = FREE_LABEL)
    (h2 : f2.processId = FREE_LABEL)
    (hpost : noAdjFreeB (f2 :: post) = true) :
    mergeFrom f1 (bm :: f2 :: post) =
      { availableSpace := f1.availableSpace + bm.availableSpace + f2.availableSpace
        startAddress := f1.startAddress
        endAddress := f2.endAddress
        processId := f1.processId } :: post := by
  rw [mergeFrom, if_pos ⟨h1, hb⟩, mergeFrom, if_pos ⟨h1, h2⟩]
  cases post with
  | nil => simp [mergeFrom]
  | cons hd t =>
    obtain ⟨hp, ht⟩ := (noAdjFreeB_cons_cons f2 hd t).mp hpost
    have hh : ¬ hd.processId = FREE_LABEL := fun hhd => hp ⟨h2, hhd⟩
    rw [mergeFrom, if_neg (fun hc => hh hc.2), mergeFrom_of_noAdj t hd ht]

theorem noAdjFreeB_replace3 : ∀ (pre : List Block) (f1 bm f2 m : Block)
    (post : List Block),
    noAdjFreeB (pre ++ f1 :: bm :: f2 :: post) = true →
    f1.processId = FREE_LABEL → f2.processId = FREE_LABEL →
    m.processId = FREE_LABEL →
    noAdjFreeB (pre ++ m :: post) = true
  | [], f1, bm, f2, m, post, h, _, h2, _ => by
    have hf2post : noAdjFreeB (f2 :: post) = true :=
      noAdjFreeB_suffix [f1, bm] (f2 :: post) (by simpa using h)
    cases post with
    | nil => simp [noAdjFreeB]
    | cons hd t =>
      obtain ⟨hp, ht⟩ := (noAdjFreeB_cons_cons f2 hd t).mp hf2post
      simpa using (noAdjFreeB_cons_cons m hd t).mpr ⟨fun hc => hp ⟨h2, hc.2⟩, ht⟩
  | [p], f1, bm, f2, m, post, h, h1, h2, hm => by
    obtain ⟨hp, ht⟩ :=
      (noAdjFreeB_cons_cons p f1 (bm :: f2 :: post)).mp (by simpa using h)
    have hrec := noAdjFreeB_replace3 [] f1 bm f2 m post (by simpa using ht) h1 h2 hm
    simpa using (noAdjFreeB_cons_cons p m post).mpr
      ⟨fun hc => hp ⟨hc.1, h1⟩, by simpa using hrec⟩
  | p :: q :: pre, f1, bm, f2, m, post, h, h1, h2, hm => by
    obtain ⟨hp, ht⟩ :=
      (noAdjFreeB_cons_cons p q (pre ++ f1 :: bm :: f2 :: post)).mp (by simpa using h)
    have hrec :=
      noAdjFreeB_replace3 (q :: pre) f1 bm f2 m post (by simpa using ht) h1 h2 hm
    simpa using (noAdjFreeB_cons_cons p q (pre ++ m :: post)).mpr
      ⟨hp, by simpa using hrec⟩

theorem releaseGo_found : ∀ (pre : List Block) (b : Block) (rest : List Block)
    (pid : String),
    (∀ c ∈ pre, c.processId ≠ pid) → b.processId = pid →
    releaseGo pid (pre ++ b :: rest) =
      some (pre ++ { b with processId := FREE_LABEL } :: rest, b.availableSpace)
  | [], b, rest, pid, _, hb => by simp [releaseGo, hb]
  | p :: pre, b, rest, pid, hpre, hb => by
    have hp : ¬ p.processId = pid := hpre p (by simp)
    simp [releaseGo, hp,
      releaseGo_found pre b rest pid (fun c hc => hpre c (by simp [hc])) hb]

/-- C2: releasing a process whose block sits between two FREE blocks turns the
three blocks into one FREE block spanning all three original extents (the
left neighbor's startAddress up to the right neighbor's endAddress, sizes
summed), the accumulator grows by the released block's size, and the full
mergeFreeBlocks scan leaves no two adjacent FREE blocks anywhere. -/
theorem release_between_free_merges
    (s : AllocState) (pre post : List Block) (f1 b f2 : Block) (pid : String)
    (hblocks : s.blocks = pre ++ f1 :: b :: f2 :: post)
    (hf1 : f1.processId = FREE_LABEL) (hf2 : f2.processId = FREE_LABEL)
    (hb : b.processId = pid) (hpid : pid ≠ FREE_LABEL)
    (hpre : ∀ c ∈ pre, c.processId ≠ pid)
    (hnadj : noAdjFreeB s.blocks = true) :
    releaseMemory s pid =
      ({ freeTotal := s.freeTotal + b.availableSpace
         blocks := pre ++
           { availableSpace := f1.availableSpace + b.availableSpace + f2.availableSpace
             startAddress := f1.startAddress
             endAddress := f2.endAddress
             processId := FREE_LABEL } :: post
         lastAddressSpace := s.lastAddressSpace }, true)
    ∧ noAdjFreeB (releaseMemory s pid).1.blocks = true := by
  have hf1pid : f1.processId ≠ pid := by
    rw [hf1]; exact fun hc => hpid hc.symm
  have hrel : releaseGo pid s.blocks =
      some (pre ++ f1 :: { b with processId := FREE_LABEL } :: f2 :: post,
        b.availableSpace) := by
    have := releaseGo_found (pre ++ [f1]) b (f2 :: post) pid
      (by
        intro c hc
        rcases List.mem_append.mp hc with h1 | h1
        · exact hpre c h1
        · simpa [List.mem_singleton.mp h1] using hf1pid) hb
    rw [hblocks]
    simpa using this
  have hnadj2 : noAdjFreeB (pre ++ f1 :: b :: f2 :: post) = true := by
    rw [hblocks] at hnadj; exact hnadj
  have hpost : noAdjFreeB (f2 :: post) = true := by
    have := noAdjFreeB_suffix (pre ++ [f1, b]) (f2 :: post) (by simpa using hnadj2)
    exact this
  have hbfree : ({ b with processId := FREE_LABEL } : Block).processId = FREE_LABEL := rfl
  have htriple := mergeFrom_triple f1 { b with processId := FREE_LABEL } f2 post
    hf1 hbfree hf2 hpost
  have hmerge : mergeGo (pre ++ f1 :: { b with processId := FREE_LABEL } :: f2 :: post) =
      pre ++
        { availableSpace := f1.availableSpace + b.availableSpace + f2.availableSpace
          startAddress := f1.startAddress
          endAddress := f2.endAddress
          processId := FREE_LABEL } :: post := by
    cases pre with
    | nil =>
      rw [List.nil_append, List.nil_append, mergeGo, htriple]
      simp [hf1]
    | cons p pre2 =>
      have hfront : noAdjFreeB (p :: pre2 ++ [f1]) = true :=
        noAdjFreeB_append_one (p :: pre2) f1 (b :: f2 :: post) (by simpa using hnadj2)
      rw [List.cons_append, mergeGo,
        mergeFrom_through pre2 p f1 ({ b with processId := FREE_LABEL } :: f2 :: post)
          (by simpa using hfront),
        htriple]
      simp [hf1]
  have hrelmem : releaseMemory s pid =
      ({ freeTotal := s.freeTotal + b.availableSpace
         blocks := pre ++
           { availableSpace := f1.availableSpace + b.availableSpace + f2.availableSpace
             startAddress := f1.startAddress
             endAddress := f2.endAddress
             processId := FREE_LABEL } :: post
         lastAddressSpace := s.lastAddressSpace }, true) := by
    rw [releaseMemory, hrel]
    simp [hmerge]
  refine ⟨hrelmem, ?_⟩
  rw [hrelmem]
  exact noAdjFreeB_replace3 pre f1 b f2 _ post hnadj2 hf1 hf2 rfl

/-- C2 witness: a concrete release between two FREE neighbors. -/
theorem release_between_free_merges_witness :
    releaseMemory
        { freeTotal := 40
          blocks := [{ availableSpace := 10, startAddress := 0, endAddress := 9,
                       processId := "FREE" },
                     { availableSpace := 20, startAddress := 10, endAddress := 29,
                       processId := "p1" },
                     { availableSpace := 30, startAddress := 30, endAddress := 59,
                       processId := "FREE" }]
          lastAddressSpace := 59 } "p1" =
      ({ freeTotal := 60
         blocks := [{ availableSpace := 60, startAddress := 0, endAddress := 59,
                      processId := "FREE" }]
         lastAddressSpace := 59 }, true)
    ∧ noAdjFreeB (releaseMemory
        { freeTotal := 40
          blocks := [{ availableSpace := 10, startAddress := 0, endAddress := 9,
                       processId := "FREE" },
                     { availableSpace := 20, startAddress := 10, endAddress := 29,
                       processId := "p1" },
                     { availableSpace := 30, startAddress := 30, endAddress := 59,
                       processId := "FREE" }]
          lastAddressSpace := 59 } "p1").1.blocks = true := by
  simpa using release_between_free_merges
    { freeTotal := 40
      blocks := [{ availableSpace := 10, startAddress := 0, endAddress := 9,
                   processId := "FREE" },
                 { availableSpace := 20, startAddress := 10, endAddress := 29,
                   processId := "p1" },
                 { availableSpace := 30, startAddress := 30, endAddress := 59,
                   processId := "FREE" }]
      lastAddressSpace := 59 } [] []
    { availableSpace := 10, startAddress := 0, endAddress := 9, processId := "FREE" }
    { availableSpace := 20, startAddress := 10, endAddress := 29, processId := "p1" }
    { availableSpace := 30, startAddress := 30, endAddress := 59, processId := "FREE" }
    "p1" rfl rfl rfl rfl (by decide) (by intro c hc; cases hc) (by decide)

theorem compactMemory_eq (s : AllocState) :
    compactMemory s =
      { freeTotal := freeSum s.blocks
        blocks :=
          if 0 < freeSum s.blocks then
            occBlocks s.blocks ++
              [{ availableSpace := freeSum s.blocks
                 startAddress := s.lastAddressSpace + 1 - freeSum s.blocks
                 endAddress := s.lastAddressSpace
                 processId := FREE_LABEL }]
          else occBlocks s.blocks
        lastAddressSpace := s.lastAddressSpace } := by
  simp [compactMemory, mergeFreeBlocks, mergeAllFreeMemory, freeSum_mergeGo,
    occBlocks_mergeGo]

/-- C1 (amended): compactMemory removes every FREE block and, when the total
FREE size is positive, appends one FREE block spanning the tail address range
lastAddressSpace + 1 - totalFree .. lastAddressSpace; the occupied blocks keep
their original start and end addresses and relative order (they are not
repositioned to address 0), and the accumulator is set to the total FREE size
(hence unchanged whenever it already equals that total). In the section-8
scenario the result is p2 still at addresses 100..149 followed by a FREE block
50..999 with accumulator 950, not p2 repositioned to 0..49. -/
theorem compact_layout (s : AllocState) :
    compactMemory s =
      { freeTotal := freeSum s.blocks
        blocks :=
          if 0 < freeSum s.blocks then
            occBlocks s.blocks ++
              [{ availableSpace := freeSum s.blocks
                 startAddress := s.lastAddressSpace + 1 - freeSum s.blocks
                 endAddress := s.lastAddressSpace
                 processId := FREE_LABEL }]
          else occBlocks s.blocks
        lastAddressSpace := s.lastAddressSpace }
    ∧ compactMemory sec8Pre =
      { freeTotal := 950
        blocks := [{ availableSpace := 50, startAddress := 100, endAddress := 149,
                     processId := "p2" },
                   { availableSpace := 950, startAddress := 50, endAddress := 999,
                     processId := "FREE" }]
        lastAddressSpace := 999 } :=
  ⟨compactMemory_eq s, by decide⟩

/-- C1 counterexample: in the section-8 scenario (capacity 1000, p2 occupying
addresses 100..149, accumulator 950) compactMemory leaves p2 at 100..149,
refuting the claimed layout of p2 repositioned to addresses 0..49 followed by
the FREE block. -/
theorem compact_sec8_cex :
    (compactMemory sec8Pre).blocks.map
        (fun b => (b.startAddress, b.endAddress, b.processId)) =
      [((100 : Int), (149 : Int), "p2"), (50, 999, "FREE")]
    ∧ ¬ (compactMemory sec8Pre).blocks.map
        (fun b => (b.startAddress, b.endAddress, b.processId)) =
      [((0 : Int), (49 : Int), "p2"), (50, 999, "FREE")] := by
  decide

/-- C8: running compactMemory twice yields exactly the same state (same block
list and same accumulator) as running it once, on every state whose total FREE
size is nonnegative (true of every reachable state). -/
theorem compact_idempotent (s : AllocState) (h : 0 ≤ freeSum s.blocks) :
    compactMemory (compactMemory s) = compactMemory s := by
  rw [compactMemory_eq s, compactMemory_eq]
  by_cases ht : 0 < freeSum s.blocks
  · simp [ht, freeSum_append, occBlocks_append, freeSum_occBlocks,
      occBlocks_occBlocks, freeSum, occBlocks, FREE_LABEL]
  · have ht0 : freeSum s.blocks = 0 := le_antisymm (not_lt.mp ht) h
    simp [ht, ht0, freeSum_occBlocks, occBlocks_occBlocks]

/-- C8 witness: idempotence of compaction at the concrete section-8 state. -/
theorem compact_idempotent_witness :
    compactMemory (compactMemory sec8Pre) = compactMemory sec8Pre :=
  compact_idempotent sec8Pre (by decide)

theorem existsGo_of_mem : ∀ (l : List Block) (b : Block) (pid : String),
    b ∈ l → b.processId = pid → existsGo pid l = true
  | [], b, _, hb, _ => absurd hb (List.not_mem_nil b)
  | c :: rest, b, pid, hb, hpid => by
    by_cases hc : c.processId = pid
    · simp [existsGo, hc]
    · rcases List.mem_cons.mp hb with h1 | h2
      · exact absurd (h1 ▸ hpid) hc
      · simp [existsGo, hc, existsGo_of_mem rest b pid h2 hpid]

theorem existsGo_false_all : ∀ (l : List Block) (pid : String),
    existsGo pid l = false → ∀ c ∈ l, c.processId ≠ pid
  | [], _, _, c, hc => absurd hc (List.not_mem_nil c)
  | b :: rest, pid, h, c, hc => by
    by_cases hb : b.processId = pid
    · simp [existsGo, hb] at h
    · rcases List.mem_cons.mp hc with h1 | h2
      · rw [h1]; exact hb
      · exact existsGo_false_all rest pid (by simpa [existsGo, hb] using h) c h2

theorem firstFitGo_found : ∀ (pre : List Block) (b : Block) (post : List Block)
    (last : Int) (pid : String) (req : Int),
    (∀ c ∈ pre, ¬(c.processId = FREE_LABEL ∧ req ≤ c.availableSpace)) →
    b.processId = FREE_LABEL → req ≤ b.availableSpace →
    firstFitGo last pid req (pre ++ b :: post) =
      some (pre ++ allocBlock last pid req b post, b.startAddress,
        b.startAddress + req - 1)
  | [], b, post, last, pid, req, _, hf, hq => by
    simp [firstFitGo, hf, hq]
  | c :: pre, b, post, last, pid, req, hpre, hf, hq => by
    have hc := hpre c (by simp)
    simp [firstFitGo, hc,
      firstFitGo_found pre b post last pid req (fun x hx => hpre x (by simp [hx])) hf hq]

theorem firstFitGo_none : ∀ (l : List Block) (last : Int) (pid : String) (req : Int),
    (∀ c ∈ l, ¬(c.processId = FREE_LABEL ∧ req ≤ c.availableSpace)) →
    firstFitGo last pid req l = none
  | [], _, _, _, _ => rfl
  | c :: rest, last, pid, req, h => by
    simp [firstFitGo, h c (by simp),
      firstFitGo_none rest last pid req (fun x hx => h x (by simp [hx]))]

theorem placeExactGo_found : ∀ (pre : List Block) (b : Block) (post : List Block)
    (last : Int) (pid : String) (req fs : Int),
    (∀ c ∈ pre, ¬(c.processId = FREE_LABEL ∧ c.availableSpace = fs)) →
    b.processId = FREE_LABEL → b.availableSpace = fs →
    placeExactGo last pid req fs (pre ++ b :: post) =
      some (pre ++ allocBlock last pid req b post, b.startAddress,
        b.startAddress + req - 1)
  | [], b, post, last, pid, req, fs, _, hf, hq => by
    simp [placeExactGo, hf, hq]
  | c :: pre, b, post, last, pid, req, fs, hpre, hf, hq => by
    have hc := hpre c (by simp)
    simp [placeExactGo, hc,
      placeExactGo_found pre b post last pid req fs
        (fun x hx => hpre x (by simp [hx])) hf hq]

theorem placeExactGo_none : ∀ (l : List Block) (last : Int) (pid : String)
    (req fs : Int),
    (∀ c ∈ l, ¬(c.processId = FREE_LABEL ∧ c.availableSpace = fs)) →
    placeExactGo last pid req fs l = none
  | [], _, _, _, _, _ => rfl
  | c :: rest, last, pid, req, fs, h => by
    simp [placeExactGo, h c (by simp),
      placeExactGo_none rest last pid req fs (fun x hx => h x (by simp [hx]))]

theorem placeExactGo_some_size : ∀ (l : List Block) (last : Int) (pid : String)
    (req fs : Int) (r : List Block × Int × Int),
    placeExactGo last pid req fs l = some r →
    ∃ c ∈ l, c.processId = FREE_LABEL ∧ c.availableSpace = fs
  | [], _, _, _, _, r, h => by simp [placeExactGo] at h
  | b :: rest, last, pid, req, fs, r, h => by
    by_cases hb : b.processId = FREE_LABEL ∧ b.availableSpace = fs
    · exact ⟨b, by simp, hb⟩
    · rw [placeExactGo, if_neg hb] at h
      cases hrec : placeExactGo last pid req fs rest with
      | none => rw [hrec] at h; cases h
      | some r2 =>
        obtain ⟨c, hc, hcp⟩ := placeExactGo_some_size rest last pid req fs r2 hrec
        exact ⟨c, by simp [hc], hcp⟩

theorem bestFitSizeGo_le : ∀ (l : List Block) (req m : Int),
    bestFitSizeGo req m l ≤ m
  | [], _, _ => le_refl _
  | b :: rest, req, m => by
    by_cases h : b.processId = FREE_LABEL ∧ req ≤ b.availableSpace ∧
        b.availableSpace < m
    · rw [bestFitSizeGo, if_pos h]
      exact le_trans (bestFitSizeGo_le rest req b.availableSpace) (le_of_lt h.2.2)
    · rw [bestFitSizeGo, if_neg h]
      exact bestFitSizeGo_le rest req m

theorem bestFitSizeGo_ub : ∀ (l : List Block) (req m : Int) (c : Block),
    c ∈ l → c.processId = FREE_LABEL → req ≤ c.availableSpace →
    bestFitSizeGo req m l ≤ c.availableSpace
  | [], _, _, c, hc, _, _ => absurd hc (List.not_mem_nil c)
  | b :: rest, req, m, c, hc, hf, hq => by
    rcases List.mem_cons.mp hc with h1 | h2
    · subst h1
      by_cases h : c.processId = FREE_LABEL ∧ req ≤ c.availableSpace ∧
          c.availableSpace < m
      · rw [bestFitSizeGo, if_pos h]
        exact bestFitSizeGo_le rest req c.availableSpace
      · have hm : m ≤ c.availableSpace := by
          by_contra hmc
          exact h ⟨hf, hq, lt_of_not_le hmc⟩
        rw [bestFitSizeGo, if_neg h]
        exact le_trans (bestFitSizeGo_le rest req m) hm
    · by_cases h : b.processId = FREE_LABEL ∧ req ≤ b.availableSpace ∧
          b.availableSpace < m
      · rw [bestFitSizeGo, if_pos h]
        exact bestFitSizeGo_ub rest req b.availableSpace c h2 hf hq
      · rw [bestFitSizeGo, if_neg h]
        exact bestFitSizeGo_ub rest req m c h2 hf hq

theorem bestFitSizeGo_cases : ∀ (l : List Block) (req m : Int),
    bestFitSizeGo req m l = m ∨
      ∃ c ∈ l, c.processId = FREE_LABEL ∧ req ≤ c.availableSpace ∧
        bestFitSizeGo req m l = c.availableSpace
  | [], _, _ => Or.inl rfl
  | b :: rest, req, m => by
    by_cases h : b.processId = FREE_LABEL ∧ req ≤ b.availableSpace ∧
        b.availableSpace < m
    · rw [bestFitSizeGo, if_pos h]
      rcases bestFitSizeGo_cases rest req b.availableSpace with h1 | ⟨c, hc, hcf, hcq, hce⟩
      · exact Or.inr ⟨b, by simp, h.1, h.2.1, h1⟩
      · exact Or.inr ⟨c, by simp [hc], hcf, hcq, hce⟩
    · rw [bestFitSizeGo, if_neg h]
      rcases bestFitSizeGo_cases rest req m with h1 | ⟨c, hc, hcf, hcq, hce⟩
      · exact Or.inl h1
      · exact Or.inr ⟨c, by simp [hc], hcf, hcq, hce⟩

theorem bestFitSizeGo_id : ∀ (l : List Block) (req m : Int),
    (∀ c ∈ l, ¬(c.processId = FREE_LABEL ∧ req ≤ c.availableSpace)) →
    bestFitSizeGo req m l = m
  | [], _, _, _ => rfl
  | b :: rest, req, m, h => by
    rw [bestFitSizeGo, if_neg (fun hx => h b (by simp) ⟨hx.1, hx.2.1⟩)]
    exact bestFitSizeGo_id rest req m (fun x hx => h x (by simp [hx]))

theorem worstFitSizeGo_ge : ∀ (l : List Block) (req m : Int),
    m ≤ worstFitSizeGo req m l
  | [], _, _ => le_refl _
  | b :: rest, req, m => by
    by_cases h : b.processId = FREE_LABEL ∧ req ≤ b.availableSpace ∧
        m < b.availableSpace
    · rw [worstFitSizeGo, if_pos h]
      exact le_trans (le_of_lt h.2.2) (worstFitSizeGo_ge rest req b.availableSpace)
    · rw [worstFitSizeGo, if_neg h]
      exact worstFitSizeGo_ge rest req m

theorem worstFitSizeGo_lb : ∀ (l : List Block) (req m : Int) (c : Block),
    c ∈ l → c.processId = FREE_LABEL → req ≤ c.availableSpace →
    c.availableSpace ≤ worstFitSizeGo req m l
  | [], _, _, c, hc, _, _ => absurd hc (List.not_mem_nil c)
  | b :: rest, req, m, c, hc, hf, hq => by
    rcases List.mem_cons.mp hc with h1 | h2
    · subst h1
      by_cases h : c.processId = FREE_LABEL ∧ req ≤ c.availableSpace ∧
          m < c.availableSpace
      · rw [worstFitSizeGo, if_pos h]
        exact worstFitSizeGo_ge rest req c.availableSpace
      · have hm : c.availableSpace ≤ m := by
          by_contra hmc
          exact h ⟨hf, hq, lt_of_not_le hmc⟩
        rw [worstFitSizeGo, if_neg h]
        exact le_trans hm (worstFitSizeGo_ge rest req m)
    · by_cases h : b.processId = FREE_LABEL ∧ req ≤ b.availableSpace ∧
          m < b.availableSpace
      · rw [worstFitSizeGo, if_pos h]
        exact worstFitSizeGo_lb rest req b.availableSpace c h2 hf hq
      · rw [worstFitSizeGo, if_neg h]
        exact worstFitSizeGo_lb rest req m c h2 hf hq

theorem worstFitSizeGo_cases : ∀ (l : List Block) (req m : Int),
    worstFitSizeGo req m l = m ∨
      ∃ c ∈ l, c.processId = FREE_LABEL ∧ req ≤ c.availableSpace ∧
        worstFitSizeGo req m l = c.availableSpace
  | [], _, _ => Or.inl rfl
  | b :: rest, req, m => by
    by_cases h : b.processId = FREE_LABEL ∧ req ≤ b.availableSpace ∧
        m < b.availableSpace
    · rw [worstFitSizeGo, if_pos h]
      rcases worstFitSizeGo_cases rest req b.availableSpace with h1 | ⟨c, hc, hcf, hcq, hce⟩
      · exact Or.inr ⟨b, by simp, h.1, h.2.1, h1⟩
      · exact Or.inr ⟨c, by simp [hc], hcf, hcq, hce⟩
    · rw [worstFitSizeGo, if_neg h]
      rcases worstFitSizeGo_cases rest req m with h1 | ⟨c, hc, hcf, hcq, hce⟩
      · exact Or.inl h1
      · exact Or.inr ⟨c, by simp [hc], hcf, hcq, hce⟩

theorem worstFitSizeGo_id : ∀ (l : List Block) (req m : Int),
    (∀ c ∈ l, ¬(c.processId = FREE_LABEL ∧ req ≤ c.availableSpace)) →
    worstFitSizeGo req m l = m
  | [], _, _, _ => rfl
  | b :: rest, req, m, h => by
    rw [worstFitSizeGo, if_neg (fun hx => h b (by simp) ⟨hx.1, hx.2.1⟩)]
    exact worstFitSizeGo_id rest req m (fun x hx => h x (by simp [hx]))

/-- C4: with at least one qualifying FREE block, allocateFirstFit selects the
first FREE block in list order whose size is at least the request;
allocateBestFit selects the FREE block of smallest qualifying size, ties
broken by the first such block; allocateWorstFit selects the FREE block of
largest qualifying size, ties broken by the first such block. The selected
block is reported through the allocated address pair start .. start + R - 1. -/
theorem strategy_selection
    (s1 : AllocState) (pre1 post1 : List Block) (b1 : Block) (pid1 : String) (r1 : Int)
    (h1b : s1.blocks = pre1 ++ b1 :: post1)
    (h1f : b1.processId = FREE_LABEL) (h1q : r1 ≤ b1.availableSpace)
    (h1pre : ∀ c ∈ pre1, ¬(c.processId = FREE_LABEL ∧ r1 ≤ c.availableSpace))
    (s2 : AllocState) (pre2 post2 : List Block) (b2 : Block) (pid2 : String) (r2 : Int)
    (h2b : s2.blocks = pre2 ++ b2 :: post2)
    (h2f : b2.processId = FREE_LABEL) (h2q : r2 ≤ b2.availableSpace)
    (h2max : b2.availableSpace < intMax)
    (h2min : ∀ c ∈ s2.blocks, c.processId = FREE_LABEL → r2 ≤ c.availableSpace →
        b2.availableSpace ≤ c.availableSpace)
    (h2tie : ∀ c ∈ pre2, ¬(c.processId = FREE_LABEL ∧
        c.availableSpace = b2.availableSpace))
    (s3 : AllocState) (pre3 post3 : List Block) (b3 : Block) (pid3 : String) (r3 : Int)
    (h3b : s3.blocks = pre3 ++ b3 :: post3)
    (h3f : b3.processId = FREE_LABEL) (h3q : r3 ≤ b3.availableSpace)
    (h3min : intMin < b3.availableSpace)
    (h3max : ∀ c ∈ s3.blocks, c.processId = FREE_LABEL → r3 ≤ c.availableSpace →
        c.availableSpace ≤ b3.availableSpace)
    (h3tie : ∀ c ∈ pre3, ¬(c.processId = FREE_LABEL ∧
        c.availableSpace = b3.availableSpace)) :
    (allocateFirstFit s1 pid1 r1).2 = some (b1.startAddress, b1.startAddress + r1 - 1)
    ∧ (allocateBestFit s2 pid2 r2).2 =
        some (b2.startAddress, b2.startAddress + r2 - 1)
    ∧ (allocateWorstFit s3 pid3 r3).2 =
        some (b3.startAddress, b3.startAddress + r3 - 1) := by
  refine ⟨?_, ?_, ?_⟩
  · rw [allocateFirstFit, h1b,
      firstFitGo_found pre1 b1 post1 s1.lastAddressSpace pid1 r1 h1pre h1f h1q]
  · have hmem : b2 ∈ s2.blocks := by rw [h2b]; simp
    have hub := bestFitSizeGo_ub s2.blocks r2 intMax b2 hmem h2f h2q
    have hfit : bestFitSizeGo r2 intMax s2.blocks = b2.availableSpace := by
      rcases bestFitSizeGo_cases s2.blocks r2 intMax with hc | ⟨c, hcmem, hcf, hcq, hce⟩
      · exact absurd h2max (not_lt.mpr (hc ▸ hub))
      · exact le_antisymm hub (by rw [hce]; exact h2min c hcmem hcf hcq)
    rw [allocateBestFit, hfit, h2b,
      placeExactGo_found pre2 b2 post2 s2.lastAddressSpace pid2 r2 b2.availableSpace
        h2tie h2f rfl]
  · have hmem : b3 ∈ s3.blocks := by rw [h3b]; simp
    have hlb := worstFitSizeGo_lb s3.blocks r3 intMin b3 hmem h3f h3q
    have hfit : worstFitSizeGo r3 intMin s3.blocks = b3.availableSpace := by
      rcases worstFitSizeGo_cases s3.blocks r3 intMin with hc | ⟨c, hcmem, hcf, hcq, hce⟩
      · exact absurd h3min (not_lt.mpr (hc ▸ hlb))
      · exact le_antisymm (by rw [hce]; exact h3max c hcmem hcf hcq) hlb
    rw [allocateWorstFit, hfit, h3b,
      placeExactGo_found pre3 b3 post3 s3.lastAddressSpace pid3 r3 b3.availableSpace
        h3tie h3f rfl]

/-- c4State has FREE blocks of sizes 50, 120, 80 in address order, separated
by occupied blocks, matching the strategy-correctness example of the
specification. -/
def c4State : AllocState :=
  { freeTotal := 250
    blocks := [{ availableSpace := 50, startAddress := 0, endAddress := 49,
                 processId := "FREE" },
               { availableSpace := 30, startAddress := 50, endAddress := 79,
                 processId := "x1" },
               { availableSpace := 120, startAddress := 80, endAddress := 199,
                 processId := "FREE" },
               { availableSpace := 10, startAddress := 200, endAddress := 209,
                 processId := "x2" },
               { availableSpace := 80, startAddress := 210, endAddress := 289,
                 processId := "FREE" }]
    lastAddressSpace := 289 }

/-- C4 witness: with free sizes 50, 120, 80 and request 60, First Fit and
Worst Fit pick the 120-block at address 80 and Best Fit picks the 80-block at
address 210. -/
theorem strategy_selection_witness :
    (allocateFirstFit c4State "q1" 60).2 = some (80, 139)
    ∧ (allocateBestFit c4State "q2" 60).2 = some (210, 269)
    ∧ (allocateWorstFit c4State "q3" 60).2 = some (80, 139) := by
  have h := strategy_selection
    c4State
    [{ availableSpace := 50, startAddress := 0, endAddress := 49, processId := "FREE" },
     { availableSpace := 30, startAddress := 50, endAddress := 79, processId := "x1" }]
    [{ availableSpace := 10, startAddress := 200, endAddress := 209, processId := "x2" },
     { availableSpace := 80, startAddress := 210, endAddress := 289, processId := "FREE" }]
    { availableSpace := 120, startAddress := 80, endAddress := 199, processId := "FREE" }
    "q1" 60 rfl rfl (by decide) (by decide)
    c4State
    [{ availableSpace := 50, startAddress := 0, endAddress := 49, processId := "FREE" },
     { availableSpace := 30, startAddress := 50, endAddress := 79, processId := "x1" },
     { availableSpace := 120, startAddress := 80, endAddress := 199, processId := "FREE" },
     { availableSpace := 10, startAddress := 200, endAddress := 209, processId := "x2" }]
    []
    { availableSpace := 80, startAddress := 210, endAddress := 289, processId := "FREE" }
    "q2" 60 rfl rfl (by decide) (by decide) (by decide) (by decide)
    c4State
    [{ availableSpace := 50, startAddress := 0, endAddress := 49, processId := "FREE" },
     { availableSpace := 30, startAddress := 50, endAddress := 79, processId := "x1" }]
    [{ availableSpace := 10, startAddress := 200, endAddress := 209, processId := "x2" },
     { availableSpace := 80, startAddress := 210, endAddress := 289, processId := "FREE" }]
    { availableSpace := 120, startAddress := 80, endAddress := 199, processId := "FREE" }
    "q3" 60 rfl rfl (by decide) (by decide) (by decide) (by decide)
  simpa using h

/-- C5: when no FREE block is at least as large as the positive request and
the pid is not present, requestMemory under any of the three strategies
returns InsufficientSpace with the block list and the accumulator exactly
unchanged. -/
theorem insufficient_space_unchanged (s : AllocState) (pid algo : String) (req : Int)
    (hreq : 0 < req) (hmax : req ≤ intMax)
    (hnofit : ∀ c ∈ s.blocks, ¬(c.processId = FREE_LABEL ∧ req ≤ c.availableSpace))
    (hnodup : processExists s pid = false)
    (halgo : algo = "F" ∨ algo = "B" ∨ algo = "W")
    (hsz : ∀ c ∈ s.blocks, c.processId = FREE_LABEL → 0 ≤ c.availableSpace) :
    requestMemory s pid req algo = (s, ReqResult.insufficient) := by
  have hff := firstFitGo_none s.blocks s.lastAddressSpace pid req hnofit
  have hbfs := bestFitSizeGo_id s.blocks req intMax hnofit
  have hwfs := worstFitSizeGo_id s.blocks req intMin hnofit
  have hpb : placeExactGo s.lastAddressSpace pid req intMax s.blocks = none := by
    apply placeExactGo_none
    intro c hc hcon
    exact hnofit c hc ⟨hcon.1, by rw [hcon.2]; exact hmax⟩
  have hpw : placeExactGo s.lastAddressSpace pid req intMin s.blocks = none := by
    apply placeExactGo_none
    intro c hc hcon
    have h0 := hsz c hc hcon.1
    rw [hcon.2] at h0
    exact absurd h0 (by decide)
  rcases halgo with ha | ha | ha <;> subst ha
  · simp [requestMemory, hnodup, allocateFirstFit, hff, toReq]
  · simp [requestMemory, hnodup, allocateBestFit, hbfs, hpb, toReq]
  · simp [requestMemory, hnodup, allocateWorstFit, hwfs, hpw, toReq]

/-- C5 witness: requesting 100 bytes when the only FREE block holds 50. -/
theorem insufficient_space_unchanged_witness :
    requestMemory
        { freeTotal := 50
          blocks := [{ availableSpace := 950, startAddress := 0, endAddress := 949,
                       processId := "p1" },
                     { availableSpace := 50, startAddress := 950, endAddress := 999,
                       processId := "FREE" }]
          lastAddressSpace := 999 } "p2" 100 "F" =
      ({ freeTotal := 50
         blocks := [{ availableSpace := 950, startAddress := 0, endAddress := 949,
                      processId := "p1" },
                    { availableSpace := 50, startAddress := 950, endAddress := 999,
                      processId := "FREE" }]
         lastAddressSpace := 999 }, ReqResult.insufficient) :=
  insufficient_space_unchanged _ "p2" "F" 100 (by decide) (by decide) (by decide)
    (by decide) (Or.inl rfl) (by decide)

/-- C6: a request for a pid that already owns an occupied block returns
DuplicateProcess with the state unchanged, for every size and every strategy
letter, so the rejection happens before any placement strategy is consulted. -/
theorem duplicate_rejected (s : AllocState) (pid algo : String) (req : Int)
    (b : Block) (hmem : b ∈ s.blocks) (hown : b.processId = pid)
    (hocc : b.processId ≠ FREE_LABEL) :
    requestMemory s pid req algo = (s, ReqResult.duplicate) := by
  simp [requestMemory, processExists, existsGo_of_mem s.blocks b pid hmem hown]

/-- C6 witness: a second request for p1 is rejected as a duplicate. -/
theorem duplicate_rejected_witness :
    requestMemory
        { freeTotal := 900
          blocks := [{ availableSpace := 100, startAddress := 0, endAddress := 99,
                       processId := "p1" },
                     { availableSpace := 900, startAddress := 100, endAddress := 999,
                       processId := "FREE" }]
          lastAddressSpace := 999 } "p1" 50 "W" =
      ({ freeTotal := 900
         blocks := [{ availableSpace := 100, startAddress := 0, endAddress := 99,
                      processId := "p1" },
                    { availableSpace := 900, startAddress := 100, endAddress := 999,
                      processId := "FREE" }]
         lastAddressSpace := 999 }, ReqResult.duplicate) :=
  duplicate_rejected _ "p1" "W" 50
    { availableSpace := 100, startAddress := 0, endAddress := 99, processId := "p1" }
    (by decide) rfl (by decide)

/-- C9: in any state containing a FREE block, a request whose pid is the FREE
marker string is rejected as an already-existing process (the existence scan
compares the pid against the owner field of FREE blocks too) and the state is
unchanged. -/
theorem free_marker_request_rejected (s : AllocState) (req : Int) (algo : String)
    (b : Block) (hmem : b ∈ s.blocks) (hfree : b.processId = FREE_LABEL) :
    requestMemory s FREE_LABEL req algo = (s, ReqResult.duplicate) := by
  simp [requestMemory, processExists, existsGo_of_mem s.blocks b FREE_LABEL hmem hfree]

/-- C9 witness: requesting under the pid FREE on the freshly initialised state. -/
theorem free_marker_request_rejected_witness :
    requestMemory (initState 1000) FREE_LABEL 10 "F" =
      (initState 1000, ReqResult.duplicate) :=
  free_marker_request_rejected (initState 1000) 10 "F"
    { availableSpace := 1000, startAddress := 0, endAddress := 999,
      processId := "FREE" }
    (by decide) rfl

/-- C10: in any state whose first FREE block in list order is f (no FREE block
precedes it), releaseMemory of the FREE marker does not fail: it succeeds,
adds f's size to the accumulator a second time, leaves the total FREE size
unchanged, and therefore (whenever the accumulator was consistent and f has
positive size) leaves the accumulator strictly above the sum of FREE sizes. -/
theorem release_free_first_block (s : AllocState) (pre post : List Block) (f : Block)
    (hblocks : s.blocks = pre ++ f :: post)
    (hfree : f.processId = FREE_LABEL)
    (hpre : ∀ c ∈ pre, c.processId ≠ FREE_LABEL) :
    (releaseMemory s FREE_LABEL).2 = true
    ∧ (releaseMemory s FREE_LABEL).1.freeTotal = s.freeTotal + f.availableSpace
    ∧ freeSum (releaseMemory s FREE_LABEL).1.blocks = freeSum s.blocks
    ∧ (s.freeTotal = freeSum s.blocks → 0 < f.availableSpace →
        freeSum (releaseMemory s FREE_LABEL).1.blocks <
          (releaseMemory s FREE_LABEL).1.freeTotal) := by
  have hf : ({ f with processId := FREE_LABEL } : Block) = f := by
    cases f
    simp_all
  have hrel : releaseGo FREE_LABEL s.blocks =
      some (pre ++ f :: post, f.availableSpace) := by
    rw [hblocks]
    have h := releaseGo_found pre f post FREE_LABEL hpre hfree
    rw [hf] at h
    exact h
  have hstate : releaseMemory s FREE_LABEL =
      ({ freeTotal := s.freeTotal + f.availableSpace
         blocks := mergeGo (pre ++ f :: post)
         lastAddressSpace := s.lastAddressSpace }, true) := by
    rw [releaseMemory, hrel]
  rw [hstate]
  refine ⟨rfl, rfl, ?_, ?_⟩
  · simp [freeSum_mergeGo, hblocks]
  · intro hacc hpos
    simp [freeSum_mergeGo, ← hblocks, ← hacc]
    exact hpos

/-- C10 witness: releasing the FREE marker on the section-8 state succeeds and
pushes the accumulator to 1050 while the FREE blocks still sum to 950. -/
theorem release_free_first_block_witness :
    (releaseMemory sec8Pre FREE_LABEL).2 = true
    ∧ (releaseMemory sec8Pre FREE_LABEL).1.freeTotal = 1050
    ∧ freeSum (releaseMemory sec8Pre FREE_LABEL).1.blocks = 950
    ∧ freeSum (releaseMemory sec8Pre FREE_LABEL).1.blocks <
        (releaseMemory sec8Pre FREE_LABEL).1.freeTotal := by
  have h := release_free_first_block sec8Pre []
    [{ availableSpace := 50, startAddress := 100, endAddress := 149, processId := "p2" },
     { availableSpace := 850, startAddress := 150, endAddress := 999,
       processId := "FREE" }]
    { availableSpace := 100, startAddress := 0, endAddress := 99, processId := "FREE" }
    (by decide) rfl (by intro c hc; cases hc)
  refine ⟨h.1, ?_, ?_, h.2.2.2 (by decide) (by decide)⟩
  · rw [h.2.1]; decide
  · rw [h.2.2.1]; decide

theorem allocBlock_occSum (last : Int) (pid : String) (req : Int) (b : Block)
    (rest : List Block) (hpid : pid ≠ FREE_LABEL) (hf : b.processId = FREE_LABEL) :
    occSum (allocBlock last pid req b rest) = req + occSum rest := by
  rw [allocBlock]
  by_cases h : 0 < b.availableSpace - req
  · simp [h, occSum, createFreeBlock, hpid]
  · simp [h, occSum, hpid]

theorem allocBlock_freeSum (last : Int) (pid : String) (req : Int) (b : Block)
    (rest : List Block) (hpid : pid ≠ FREE_LABEL) (hf : b.processId = FREE_LABEL)
    (hq : req ≤ b.availableSpace) :
    freeSum (allocBlock last pid req b rest) =
      b.availableSpace - req + freeSum rest := by
  rw [allocBlock]
  by_cases h : 0 < b.availableSpace - req
  · simp [h, freeSum, createFreeBlock, hpid]
  · have h0 : b.availableSpace - req = 0 := le_antisymm (not_lt.mp h) (by omega)
    simp [h, freeSum, hpid, h0]

theorem allocBlock_sizes (last : Int) (pid : String) (req : Int) (b : Block)
    (rest : List Block) (hreq : 0 ≤ req) (hrest : sizesNonneg rest) :
    sizesNonneg (allocBlock last pid req b rest) := by
  rw [allocBlock]
  by_cases h : 0 < b.availableSpace - req
  · simp only [h, if_true]
    intro x hx
    rcases List.mem_cons.mp hx with h1 | h2
    · simpa [h1] using hreq
    · rcases List.mem_cons.mp h2 with h3 | h4
      · simp [h3, createFreeBlock]
        omega
      · exact hrest x h4
  · simp only [h, if_false]
    intro x hx
    rcases List.mem_cons.mp hx with h1 | h2
    · simpa [h1] using hreq
    · exact hrest x h2

theorem firstFitGo_sums : ∀ (l : List Block) (last : Int) (pid : String) (req : Int)
    (bs : List Block) (a e : Int),
    firstFitGo last pid req l = some (bs, a, e) → pid ≠ FREE_LABEL →
    occSum bs = req + occSum l ∧ freeSum bs = freeSum l - req ∧
      (0 ≤ req → sizesNonneg l → sizesNonneg bs)
  | [], _, _, _, _, _, _, h, _ => by simp [firstFitGo] at h
  | b :: rest, last, pid, req, bs, a, e, h, hpid => by
    by_cases hb : b.processId = FREE_LABEL ∧ req ≤ b.availableSpace
    · rw [firstFitGo, if_pos hb] at h
      simp only [Option.some.injEq, Prod.mk.injEq] at h
      obtain ⟨h1, _, _⟩ := h
      subst h1
      refine ⟨?_, ?_, ?_⟩
      · rw [allocBlock_occSum last pid req b rest hpid hb.1]
        simp [occSum, hb.1]
      · rw [allocBlock_freeSum last pid req b rest hpid hb.1 hb.2]
        simp [freeSum, hb.1]
        ring
      · intro hreq hsz
        exact allocBlock_sizes last pid req b rest hreq
          (fun x hx => hsz x (by simp [hx]))
    · rw [firstFitGo, if_neg hb] at h
      cases hrec : firstFitGo last pid req rest with
      | none => rw [hrec] at h; cases h
      | some r =>
        obtain ⟨l2, a2, e2⟩ := r
        rw [hrec] at h
        simp only [Option.some.injEq, Prod.mk.injEq] at h
        obtain ⟨h1, _, _⟩ := h
        subst h1
        obtain ⟨ih1, ih2, ih3⟩ :=
          firstFitGo_sums rest last pid req l2 a2 e2 hrec hpid
        refine ⟨?_, ?_, ?_⟩
        · simp [occSum, ih1]; ring
        · simp [freeSum, ih2]; ring
        · intro hreq hsz
          intro x hx
          rcases List.mem_cons.mp hx with hx1 | hx2
          · exact hx1 ▸ hsz b (by simp)
          · exact ih3 hreq (fun y hy => hsz y (by simp [hy])) x hx2

theorem placeExactGo_sums : ∀ (l : List Block) (last : Int) (pid : String)
    (req fs : Int) (bs : List Block) (a e : Int),
    placeExactGo last pid req fs l = some (bs, a, e) → pid ≠ FREE_LABEL →
    req ≤ fs →
    occSum bs = req + occSum l ∧ freeSum bs = freeSum l - req ∧
      (0 ≤ req → sizesNonneg l → sizesNonneg bs)
  | [], _, _, _, _, _, _, _, h, _, _ => by simp [placeExactGo] at h
  | b :: rest, last, pid, req, fs, bs, a, e, h, hpid, hfs => by
    by_cases hb : b.processId = FREE_LABEL ∧ b.availableSpace = fs
    · rw [placeExactGo, if_pos hb] at h
      simp only [Option.some.injEq, Prod.mk.injEq] at h
      obtain ⟨h1, _, _⟩ := h
      subst h1
      have hq : req ≤ b.availableSpace := by rw [hb.2]; exact hfs
      refine ⟨?_, ?_, ?_⟩
      · rw [allocBlock_occSum last pid req b rest hpid hb.1]
        simp [occSum, hb.1]
      · rw [allocBlock_freeSum last pid req b rest hpid hb.1 hq]
        simp [freeSum, hb.1]
        ring
      · intro hreq hsz
        exact allocBlock_sizes last pid req b rest hreq
          (fun x hx => hsz x (by simp [hx]))
    · rw [placeExactGo, if_neg hb] at h
      cases hrec : placeExactGo last pid req fs rest with
      | none => rw [hrec] at h; cases h
      | some r =>
        obtain ⟨l2, a2, e2⟩ := r
        rw [hrec] at h
        simp only [Option.some.injEq, Prod.mk.injEq] at h
        obtain ⟨h1, _, _⟩ := h
        subst h1
        obtain ⟨ih1, ih2, ih3⟩ :=
          placeExactGo_sums rest last pid req fs l2 a2 e2 hrec hpid hfs
        refine ⟨?_, ?_, ?_⟩
        · simp [occSum, ih1]; ring
        · simp [freeSum, ih2]; ring
        · intro hreq hsz
          intro x hx
          rcases List.mem_cons.mp hx with hx1 | hx2
          · exact hx1 ▸ hsz b (by simp)
          · exact ih3 hreq (fun y hy => hsz y (by simp [hy])) x hx2

theorem releaseGo_sums : ∀ (l : List Block) (pid : String) (bs : List Block)
    (sz : Int),
    releaseGo pid l = some (bs, sz) → pid ≠ FREE_LABEL →
    occSum bs = occSum l - sz ∧ freeSum bs = freeSum l + sz ∧
      (sizesNonneg l → sizesNonneg bs ∧ 0 ≤ sz)
  | [], _, _, _, h, _ => by simp [releaseGo] at h
  | b :: rest, pid, bs, sz, h, hpid => by
    by_cases hb : b.processId = pid
    · rw [releaseGo, if_pos hb] at h
      simp only [Option.some.injEq, Prod.mk.injEq] at h
      obtain ⟨h1, h2⟩ := h
      subst h1
      subst h2
      have hbocc : ¬ b.processId = FREE_LABEL := by rw [hb]; exact hpid
      refine ⟨?_, ?_, ?_⟩
      · simp [occSum, freeSum, hbocc]
        try ring
      · simp [occSum, freeSum, hbocc]
        try ring
      · intro hsz
        refine ⟨?_, hsz b (by simp)⟩
        intro x hx
        rcases List.mem_cons.mp hx with hx1 | hx2
        · simpa [hx1] using hsz b (by simp)
        · exact hsz x (by simp [hx2])
    · rw [releaseGo, if_neg hb] at h
      cases hrec : releaseGo pid rest with
      | none => rw [hrec] at h; cases h
      | some r =>
        obtain ⟨l2, sz2⟩ := r
        rw [hrec] at h
        simp only [Option.some.injEq, Prod.mk.injEq] at h
        obtain ⟨h1, h2⟩ := h
        subst h1
        subst h2
        obtain ⟨ih1, ih2, ih3⟩ := releaseGo_sums rest pid l2 sz2 hrec hpid
        refine ⟨?_, ?_, ?_⟩
        · simp [occSum, ih1]; ring
        · simp [freeSum, ih2]; ring
        · intro hsz
          obtain ⟨ihs, ihp⟩ := ih3 (fun y hy => hsz y (by simp [hy]))
          refine ⟨?_, ihp⟩
          intro x hx
          rcases List.mem_cons.mp hx with hx1 | hx2
          · exact hx1 ▸ hsz b (by simp)
          · exact ihs x hx2

theorem allocStep_inv (s : AllocState) (bs : List Block) (req N : Int)
    (h1 : occSum s.blocks + s.freeTotal = N) (h2 : s.freeTotal = freeSum s.blocks)
    (h3 : sizesNonneg s.blocks) (hreq : 0 < req)
    (k1 : occSum bs = req + occSum s.blocks)
    (k2 : freeSum bs = freeSum s.blocks - req)
    (k3 : 0 ≤ req → sizesNonneg s.blocks → sizesNonneg bs) :
    occSum bs + (s.freeTotal - req) = N
    ∧ s.freeTotal - req = freeSum bs
    ∧ sizesNonneg bs :=
  ⟨by omega, by omega, k3 (le_of_lt hreq) h3⟩

theorem requestMemory_inv (s : AllocState) (pid algo : String) (req N : Int)
    (h1 : occSum s.blocks + s.freeTotal = N) (h2 : s.freeTotal = freeSum s.blocks)
    (h3 : sizesNonneg s.blocks) (hreq : 0 < req) (hmax : req ≤ intMax) :
    occSum (requestMemory s pid req algo).1.blocks +
        (requestMemory s pid req algo).1.freeTotal = N
    ∧ (requestMemory s pid req algo).1.freeTotal =
        freeSum (requestMemory s pid req algo).1.blocks
    ∧ sizesNonneg (requestMemory s pid req algo).1.blocks := by
  by_cases hex : processExists s pid = true
  · simp [requestMemory, hex]
    exact ⟨h1, h2, h3⟩
  · have hexf : processExists s pid = false := by
      revert hex; cases processExists s pid <;> simp
    by_cases hpid : pid = FREE_LABEL
    · have hnofree : ∀ c ∈ s.blocks, c.processId ≠ FREE_LABEL := by
        intro c hc
        exact hpid ▸ existsGo_false_all s.blocks pid hexf c hc
      have hnofit : ∀ c ∈ s.blocks,
          ¬(c.processId = FREE_LABEL ∧ req ≤ c.availableSpace) :=
        fun c hc hcon => hnofree c hc hcon.1
      have hff := firstFitGo_none s.blocks s.lastAddressSpace pid req hnofit
      have hpb := placeExactGo_none s.blocks s.lastAddressSpace pid req
        (bestFitSizeGo req intMax s.blocks) (fun c hc hcon => hnofree c hc hcon.1)
      have hpw := placeExactGo_none s.blocks s.lastAddressSpace pid req
        (worstFitSizeGo req intMin s.blocks) (fun c hc hcon => hnofree c hc hcon.1)
      by_cases ha1 : algo = "W"
      · simp [requestMemory, hexf, ha1, allocateWorstFit, hpw, toReq]
        exact ⟨h1, h2, h3⟩
      · by_cases ha2 : algo = "B"
        · simp [requestMemory, hexf, ha1, ha2, allocateBestFit, hpb, toReq]
          exact ⟨h1, h2, h3⟩
        · by_cases ha3 : algo = "F"
          · simp [requestMemory, hexf, ha1, ha2, ha3, allocateFirstFit, hff, toReq]
            exact ⟨h1, h2, h3⟩
          · simp [requestMemory, hexf, ha1, ha2, ha3]
            exact ⟨h1, h2, h3⟩
    · by_cases ha1 : algo = "W"
      · cases hp : placeExactGo s.lastAddressSpace pid req
            (worstFitSizeGo req intMin s.blocks) s.blocks with
        | none =>
          simp [requestMemory, hexf, ha1, allocateWorstFit, hp, toReq]
          exact ⟨h1, h2, h3⟩
        | some r =>
          obtain ⟨bs, a, e⟩ := r
          have hfs : req ≤ worstFitSizeGo req intMin s.blocks := by
            rcases worstFitSizeGo_cases s.blocks req intMin with hc | ⟨c, _, _, hcq, hce⟩
            · exfalso
              obtain ⟨c, hcm, _, hcs⟩ :=
                placeExactGo_some_size s.blocks s.lastAddressSpace pid req
                  (worstFitSizeGo req intMin s.blocks) (bs, a, e) hp
              have h0 := h3 c hcm
              rw [hcs, hc] at h0
              exact absurd h0 (by decide)
            · rw [hce]; exact hcq
          obtain ⟨k1, k2, k3⟩ := placeExactGo_sums s.blocks s.lastAddressSpace pid req
            (worstFitSizeGo req intMin s.blocks) bs a e hp hpid hfs
          simp [requestMemory, hexf, ha1, allocateWorstFit, hp, toReq]
          exact allocStep_inv s bs req N h1 h2 h3 hreq k1 k2 k3
      · by_cases ha2 : algo = "B"
        · cases hp : placeExactGo s.lastAddressSpace pid req
              (bestFitSizeGo req intMax s.blocks) s.blocks with
          | none =>
            simp [requestMemory, hexf, ha1, ha2, allocateBestFit, hp, toReq]
            exact ⟨h1, h2, h3⟩
          | some r =>
            obtain ⟨bs, a, e⟩ := r
            have hfs : req ≤ bestFitSizeGo req intMax s.blocks := by
              rcases bestFitSizeGo_cases s.blocks req intMax with hc | ⟨c, _, _, hcq, hce⟩
              · rw [hc]; exact hmax
              · rw [hce]; exact hcq
            obtain ⟨k1, k2, k3⟩ := placeExactGo_sums s.blocks s.lastAddressSpace pid req
              (bestFitSizeGo req intMax s.blocks) bs a e hp hpid hfs
            simp [requestMemory, hexf, ha1, ha2, allocateBestFit, hp, toReq]
            exact allocStep_inv s bs req N h1 h2 h3 hreq k1 k2 k3
        · by_cases ha3 : algo = "F"
          · cases hp : firstFitGo s.lastAddressSpace pid req s.blocks with
            | none =>
              simp [requestMemory, hexf, ha1, ha2, ha3, allocateFirstFit, hp, toReq]
              exact ⟨h1, h2, h3⟩
            | some r =>
              obtain ⟨bs, a, e⟩ := r
              obtain ⟨k1, k2, k3⟩ :=
                firstFitGo_sums s.blocks s.lastAddressSpace pid req bs a e hp hpid
              simp [requestMemory, hexf, ha1, ha2, ha3, allocateFirstFit, hp, toReq]
              exact allocStep_inv s bs req N h1 h2 h3 hreq k1 k2 k3
          · simp [requestMemory, hexf, ha1, ha2, ha3]
            exact ⟨h1, h2, h3⟩

theorem releaseMemory_inv (s : AllocState) (pid : String) (N : Int)
    (h1 : occSum s.blocks + s.freeTotal = N) (h2 : s.freeTotal = freeSum s.blocks)
    (h3 : sizesNonneg s.blocks) (hpid : pid ≠ FREE_LABEL) :
    occSum (releaseMemory s pid).1.blocks + (releaseMemory s pid).1.freeTotal = N
    ∧ (releaseMemory s pid).1.freeTotal = freeSum (releaseMemory s pid).1.blocks
    ∧ sizesNonneg (releaseMemory s pid).1.blocks := by
  cases hrel : releaseGo pid s.blocks with
  | none =>
    simp [releaseMemory, hrel]
    exact ⟨h1, h2, h3⟩
  | some r =>
    obtain ⟨bs, sz⟩ := r
    obtain ⟨k1, k2, k3⟩ := releaseGo_sums s.blocks pid bs sz hrel hpid
    obtain ⟨ks, _⟩ := k3 h3
    simp only [releaseMemory, hrel]
    refine ⟨?_, ?_, ?_⟩
    · simp [occSum_mergeGo]; omega
    · simp [freeSum_mergeGo]; omega
    · exact sizesNonneg_mergeGo bs ks

theorem runOps_inv (N : Int) : ∀ (ops : List Op) (s : AllocState),
    (∀ op ∈ ops, opOK op = true) →
    occSum s.blocks + s.freeTotal = N → s.freeTotal = freeSum s.blocks →
    sizesNonneg s.blocks →
    occSum (runOps s ops).blocks + (runOps s ops).freeTotal = N
    ∧ (runOps s ops).freeTotal = freeSum (runOps s ops).blocks
    ∧ sizesNonneg (runOps s ops).blocks
  | [], s, _, h1, h2, h3 => ⟨h1, h2, h3⟩
  | op :: ops, s, hops, h1, h2, h3 => by
    have hop := hops op (by simp)
    have hrec := fun k1 k2 k3 =>
      runOps_inv N ops (stepOp s op) (fun o ho => hops o (by simp [ho])) k1 k2 k3
    cases op with
    | rq pid sz algo =>
      simp only [opOK, Bool.and_eq_true, decide_eq_true_eq] at hop
      obtain ⟨k1, k2, k3⟩ :=
        requestMemory_inv s pid algo sz N h1 h2 h3 hop.1 hop.2
      exact hrec k1 k2 k3
    | rl pid =>
      simp [opOK] at hop
      obtain ⟨k1, k2, k3⟩ := releaseMemory_inv s pid N h1 h2 h3 hop
      exact hrec k1 k2 k3

/-- C3 (amended): starting from the initial single-FREE-block state of a run
with startup capacity N, after every sequence of Allocate operations with
positive int-representable sizes and Release operations whose pid is not the
FREE marker, the sum of occupied sizes plus the accumulator equals N and the
accumulator equals the sum of FREE block sizes. (Releasing the FREE marker
itself breaks both equalities, see the counterexample.) -/
theorem conservation_invariant (N : Int) (ops : List Op) (hN : 1 < N)
    (hops : ∀ op ∈ ops, opOK op = true) :
    occSum (runOps (initState N) ops).blocks +
        (runOps (initState N) ops).freeTotal = N
    ∧ (runOps (initState N) ops).freeTotal =
        freeSum (runOps (initState N) ops).blocks := by
  have h := runOps_inv N ops (initState N) hops
    (by simp [initState, occSum, freeSum]; try omega)
    (by simp [initState, occSum, freeSum]; try omega)
    (by
      intro b hb
      simp [initState] at hb
      simp [hb]
      omega)
  exact ⟨h.1, h.2.1⟩

/-- C3 counterexample: from the capacity-1000 initial state, the single
operation Release of the FREE marker leaves the accumulator at 2000 while the
FREE blocks sum to 1000 and nothing is occupied, so occupied + accumulator is
2000, not the capacity 1000. -/
theorem conservation_cex :
    (runOps (initState 1000) [Op.rl "FREE"]).freeTotal = 2000
    ∧ freeSum (runOps (initState 1000) [Op.rl "FREE"]).blocks = 1000
    ∧ ¬ (occSum (runOps (initState 1000) [Op.rl "FREE"]).blocks +
          (runOps (initState 1000) [Op.rl "FREE"]).freeTotal = 1000) := by
  decide

/-- C3 witness: conservation along a concrete allocate and release trace. -/
theorem conservation_invariant_witness :
    occSum (runOps (initState 1000) [Op.rq "p1" 100 "B", Op.rl "p1"]).blocks +
        (runOps (initState 1000) [Op.rq "p1" 100 "B", Op.rl "p1"]).freeTotal = 1000
    ∧ (runOps (initState 1000) [Op.rq "p1" 100 "B", Op.rl "p1"]).freeTotal =
        freeSum (runOps (initState 1000) [Op.rq "p1" 100 "B", Op.rl "p1"]).blocks :=
  conservation_invariant 1000 [Op.rq "p1" 100 "B", Op.rl "p1"] (by decide) (by decide)

/-- C7 counterexample: the RQ line with size -5 parses (sscanf assigns all
four fields), the shell calls the engine with the non-positive size, and the
engine even mutates the state, refuting the claim that the shell rejects
non-positive sizes before reaching the engine. -/
theorem shell_negative_size_cex :
    (shellExec (initState 1000) "RQ p1 -5 F").2 =
      EngineCall.rqCall "p1" (-5) "F" (ReqResult.allocated 0 (-6))
    ∧ ¬ (shellExec (initState 1000) "RQ p1 -5 F").1 = initState 1000
    ∧ ¬ (0 < (-5 : Int)) := by
  refine ⟨by decide, by decide, by decide⟩

/-- C7 (amended): the shell performs no semantic validation of an RQ line:
whenever the four sscanf conversions of "%s %2s %d %1s" succeed it calls the
engine's requestMemory with exactly the parsed pid, size, and strategy,
including non-positive sizes and strategy letters outside F, B, W; only a
conversion failure makes the shell reject the line without reaching the
engine. -/
theorem shell_forwards_parsed_rq (s : AllocState) (line : String)
    (pid algo : String) (sz : Int)
    (hw : firstWord line = some "RQ")
    (hp : rqParse line = some (pid, sz, algo)) :
    shellExec s line =
      ((requestMemory s pid sz algo).1,
        EngineCall.rqCall pid sz algo (requestMemory s pid sz algo).2) := by
  rw [shellExec, hw]
  simp [hp]

/-- C7 witness: the shell forwards the parsed negative-size RQ line to the
engine unchanged. -/
theorem shell_forwards_parsed_rq_witness :
    shellExec (initState 1000) "RQ p1 -5 F" =
      ((requestMemory (initState 1000) "p1" (-5) "F").1,
        EngineCall.rqCall "p1" (-5) "F"
          (requestMemory (initState 1000) "p1" (-5) "F").2) :=
  shell_forwards_parsed_rq (initState 1000) "RQ p1 -5 F" "p1" "F" (-5)
    (by decide) (by decide)
